import Mathlib

/-!
Shallow embedding of `pkg/notifier/github/notify.go` (tfcmt): the notification
orchestrator `Notify`, the label reconciler `updateLabels` and its helper
`removeResultLabels`, and `getEmbeddedComment`.  External collaborators
(output parser, template engine, GitHub API, commit lookup, metadata encoder)
are modelled by a deterministic environment `Env`; the mutable outside state
(labels attached to the pull request) and the log of outbound API calls are
threaded explicitly through a `World` value.
-/

namespace Tfcmt

/-- A GitHub label attached to the pull request, as the issues API returns it:
the Go accessors `GetName` / `GetColor` read the `name` / `color` fields. -/
structure Label where
  name : String
  color : String
deriving DecidableEq

/-- One outbound interaction with an external collaborator.  The embedding
logs every call the Go code issues, in order of occurrence. -/
inductive APICall where
  | listLabels : APICall
  | removeLabel (name : String) : APICall
  | addLabels (names : List String) : APICall
  | updateLabel (name color : String) : APICall
  | execTemplate (t : String) : APICall
  | postComment (body : String) (number : Int) (revision : String) : APICall
deriving DecidableEq

/-- External mutable state: the labels currently attached to the pull
request, plus the ordered log of API calls issued so far. -/
structure World where
  attached : List Label := []
  calls : List APICall := []
deriving DecidableEq

/-- The structured outcome of parsing the CLI output
(`terraform.ParseResult`); a Go `error` value is modelled as
`Option String` (`none` = nil). -/
structure ParseResult where
  Result : String := ""
  ChangedResult : String := ""
  OutsideTerraform : String := ""
  Warning : String := ""
  HasAddOrUpdateOnly : Bool := false
  HasDestroy : Bool := false
  HasNoChanges : Bool := false
  HasPlanError : Bool := false
  HasParseError : Bool := false
  ExitCode : Int := 0
  Error : Option String := none
  CreatedResources : List String := []
  UpdatedResources : List String := []
  DeletedResources : List String := []
  ReplacedResources : List String := []
deriving DecidableEq

/-- Modelled from the spec: `notifier.ParamExec` (pkg/notifier is not under
src/) — RunParameters for one invocation: combined stdout+stderr, separate
stdout and stderr, caller-observed exit code and CI name. -/
structure ParamExec where
  CombinedOutput : String := ""
  Stdout : String := ""
  Stderr : String := ""
  ExitCode : Int := 0
  CIName : String := ""
deriving DecidableEq

/-- Modelled from the spec: the pull-request identity of the configuration
(the config package is not under src/) — either a known PR number or a
revision used to resolve one. -/
structure PullRequest where
  Number : Int := 0
  Revision : String := ""
deriving DecidableEq

/-- Modelled from the spec: a PR number is known when the field is set
(the Go zero value 0 means "no number known"). -/
def PullRequest.IsNumber (pr : PullRequest) : Bool := pr.Number != 0

/-- The configured mutually-exclusive result labels and their colors
(the config package is not under src/; field names follow the Go code's
uses `cfg.ResultLabels.AddOrUpdateLabel`, …). -/
structure ResultLabels where
  AddOrUpdateLabel : String := ""
  AddOrUpdateLabelColor : String := ""
  DestroyLabel : String := ""
  DestroyLabelColor : String := ""
  NoChangesLabel : String := ""
  NoChangesLabelColor : String := ""
  PlanErrorLabel : String := ""
  PlanErrorLabelColor : String := ""
deriving DecidableEq

/-- Modelled from the spec: a label name belongs to the known result-label
set when it equals one of the four configured result-label names; an empty
name never counts (an unconfigured result label has the empty name). -/
def ResultLabels.IsResultLabel (r : ResultLabels) (label : String) : Bool :=
  if label = "" then false
  else if label = r.AddOrUpdateLabel ∨ label = r.DestroyLabel ∨
          label = r.NoChangesLabel ∨ label = r.PlanErrorLabel then true
  else false

/-- Modelled from the spec: at least one result label is configured
(some configured result-label name is non-empty). -/
def ResultLabels.HasAnyLabelDefined (r : ResultLabels) : Bool :=
  r.AddOrUpdateLabel != "" || r.DestroyLabel != "" ||
  r.NoChangesLabel != "" || r.PlanErrorLabel != ""

/-- Which concrete parser type the configuration carries; the Go code
dispatches on the dynamic type (`*terraform.PlanParser`,
`*terraform.ApplyParser`, or anything else). -/
inductive ParserKind where
  | plan
  | apply
  | other
deriving DecidableEq

/-- The configuration (`Config`) fields `Notify` reads; templates are
identified by name, their rendering lives in the environment. -/
structure Config where
  Template : String := ""
  ParseErrorTemplate : String := ""
  Parser : ParserKind := ParserKind.plan
  PR : PullRequest := {}
  ResultLabels : ResultLabels := {}
  CI : String := ""
  UseRawOutput : Bool := false
  Vars : List (String × String) := []
  Templates : List (String × String) := []
  EmbeddedVarNames : List String := []
deriving DecidableEq

/-- The value bag handed to the template (`terraform.CommonTemplate`). -/
structure CommonTemplate where
  Result : String
  ChangedResult : String
  ChangeOutsideTerraform : String
  Warning : String
  HasDestroy : Bool
  Link : String
  UseRawOutput : Bool
  Vars : List (String × String)
  Templates : List (String × String)
  Stdout : String
  Stderr : String
  CombinedOutput : String
  ExitCode : Int
  ErrorMessages : List String
  CreatedResources : List String
  UpdatedResources : List String
  DeletedResources : List String
  ReplacedResources : List String
deriving DecidableEq

/-- The data map `getEmbeddedComment` builds for the metadata encoder
("Program" is always the constant "tfcmt"). -/
structure EmbeddedInput where
  Vars : List (String × String)
  SHA1 : String
  PRNumber : Int
  Target : Option String
  Command : String
deriving DecidableEq

/-- Addressing for a posted comment (`PostOptions`). -/
structure PostOptions where
  Number : Int
  Revision : String
deriving DecidableEq

/-- Deterministic behavior of the external collaborators: the output parser,
the template engine, the GitHub label API (including which calls fail, with
which HTTP status and message, and which color a freshly attached label
carries), the commits lookup, the metadata encoder and the comment poster. -/
structure Env where
  parse : String → ParseResult := fun _ => {}
  exec : String → CommonTemplate → Except String String := fun _ _ => Except.ok ""
  listErr : Option String := none
  removeErr : String → Option (Nat × String) := fun _ => none
  addErr : Option String := none
  addColor : String → String := fun _ => "ededed"
  updateErr : Option String := none
  mergedPRNumber : String → Except String Int := fun _ => Except.error "not found"
  listCommits : String → Except String (List String) := fun _ => Except.ok []
  embed : String → EmbeddedInput → Except String String := fun _ _ => Except.ok ""
  post : String → PostOptions → Option String := fun _ _ => none

/-- Go string-map lookup `m[k]`: a missing key yields the zero value "". -/
def lookupVar (m : List (String × String)) (k : String) : String :=
  ((m.find? (fun p => p.1 == k)).map (fun p => p.2)).getD ""

/-- Modelled from the spec: `Commits.lastOne` (commits.go is not under src/)
picks the most recent commit from the listed commits (the head of the list;
the listing returns the newest commit first) and reports an error on an
empty list — an error `Notify` discards. -/
def Commits.lastOne (commits : List String) (_revision : String) :
    String × Option String :=
  match commits with
  | [] => ("", some "no commits")
  | c :: _ => (c, none)

/-- The `switch` at the top of `updateLabels`: the first matching flag, in
the order AddOrUpdateOnly, Destroy, NoChanges, PlanError, chooses the label
and its configured color; no match leaves both empty. -/
def targetLabel (rl : ResultLabels) (result : ParseResult) : String × String :=
  if result.HasAddOrUpdateOnly then (rl.AddOrUpdateLabel, rl.AddOrUpdateLabelColor)
  else if result.HasDestroy then (rl.DestroyLabel, rl.DestroyLabelColor)
  else if result.HasNoChanges then (rl.NoChangesLabel, rl.NoChangesLabelColor)
  else if result.HasPlanError then (rl.PlanErrorLabel, rl.PlanErrorLabelColor)
  else ("", "")

/-- The loop body of `removeResultLabels`: iterate over the snapshot of
listed labels; remember the color of the label matching `label`; remove any
other label in the result-label set.  A removal failing with HTTP 404 is
skipped; any other removal failure aborts the loop, returning the color
accumulated so far and the error. -/
def removeLoop (env : Env) (rl : ResultLabels) (label : String) :
    List Label → String → World → (String × Option String) × World
  | [], labelColor, w => ((labelColor, none), w)
  | l :: rest, labelColor, w =>
    if l.name = label then
      removeLoop env rl label rest l.color w
    else if rl.IsResultLabel l.name then
      let w1 : World := { w with calls := w.calls ++ [APICall.removeLabel l.name] }
      match env.removeErr l.name with
      | none =>
          removeLoop env rl label rest labelColor
            { w1 with attached := w1.attached.filter (fun x => x.name != l.name) }
      | some (status, msg) =>
          if status ≠ 404 then ((labelColor, some msg), w1)
          else removeLoop env rl label rest labelColor w1
    else
      removeLoop env rl label rest labelColor w

/-- `removeResultLabels`: list the labels on the pull request (a listing
failure is returned as the error), then run the removal loop over that
snapshot. -/
def removeResultLabels (env : Env) (cfg : Config) (label : String) (w : World) :
    (String × Option String) × World :=
  let w1 : World := { w with calls := w.calls ++ [APICall.listLabels] }
  match env.listErr with
  | some e => (("", some e), w1)
  | none => removeLoop env cfg.ResultLabels label w1.attached "" w1

/-- The error message `updateLabels` builds for a failed color update. -/
def updateColorMsg (name color e : String) : String :=
  "update a label color (name: " ++ name ++ ", color: " ++ color ++ "): " ++ e

/-- Effect of a successful `IssuesUpdateLabel`: the label is recolored
repo-wide, so every attached occurrence of the name takes the new color. -/
def setColor (A : List Label) (name color : String) : List Label :=
  A.map (fun l => if l.name = name then { l with color := color } else l)

/-- Effect of a successful `IssuesAddLabels` with a single name: the label is
attached if not already present, taking the color the repository gives it;
the call returns the labels now on the issue. -/
def addLabelTo (env : Env) (A : List Label) (n : String) : List Label :=
  if A.any (fun l => l.name == n) then A else A ++ [⟨n, env.addColor n⟩]

/-- The color-fixing loop inside the add branch of `updateLabels`: for each
label returned by the add call whose name is the added label and whose color
differs from the configured color, issue a color update; a failure is
recorded as a non-fatal message. -/
def colorFixLoop (env : Env) (labelToAdd labelColor : String) :
    List Label → List String → World → List String × World
  | [], errMsgs, w => (errMsgs, w)
  | l :: rest, errMsgs, w =>
    if labelToAdd = l.name then
      if l.color ≠ labelColor then
        let w1 : World := { w with calls := w.calls ++ [APICall.updateLabel labelToAdd labelColor] }
        match env.updateErr with
        | some e =>
            colorFixLoop env labelToAdd labelColor rest
              (errMsgs ++ [updateColorMsg labelToAdd labelColor e]) w1
        | none =>
            colorFixLoop env labelToAdd labelColor rest errMsgs
              { w1 with attached := setColor w1.attached labelToAdd labelColor }
      else colorFixLoop env labelToAdd labelColor rest errMsgs w
    else colorFixLoop env labelToAdd labelColor rest errMsgs w

/-- `updateLabels`: decide the target label from the parse result, remove
stale result labels (remembering the target's current color), then — when a
target exists — add it if its listed color is empty, fixing the color of the
freshly returned labels, or recolor it when the configured color differs
from its listed color.  All failures are recorded as non-fatal messages. -/
def updateLabels (env : Env) (cfg : Config) (result : ParseResult) (w : World) :
    List String × World :=
  let p := targetLabel cfg.ResultLabels result
  let labelToAdd := p.1
  let labelColor := p.2
  let r := removeResultLabels env cfg labelToAdd w
  let currentLabelColor := r.1.1
  let w := r.2
  let errMsgs : List String :=
    match r.1.2 with
    | some e => ["remove labels: " ++ e]
    | none => []
  if labelToAdd = "" then (errMsgs, w)
  else if currentLabelColor = "" then
    let w1 : World := { w with calls := w.calls ++ [APICall.addLabels [labelToAdd]] }
    match env.addErr with
    | some e =>
        -- on a failed add the Go call returns no labels, so the color loop
        -- below has nothing to iterate
        (errMsgs ++ ["add a label " ++ labelToAdd ++ ": " ++ e], w1)
    | none =>
        let newAttached := addLabelTo env w1.attached labelToAdd
        let w2 : World := { w1 with attached := newAttached }
        if labelColor ≠ "" then colorFixLoop env labelToAdd labelColor newAttached errMsgs w2
        else (errMsgs, w2)
  else if labelColor ≠ "" ∧ labelColor ≠ currentLabelColor then
    let w1 : World := { w with calls := w.calls ++ [APICall.updateLabel labelToAdd labelColor] }
    match env.updateErr with
    | some e => (errMsgs ++ [updateColorMsg labelToAdd labelColor e], w1)
    | none => (errMsgs, { w1 with attached := setColor w1.attached labelToAdd labelColor })
  else (errMsgs, w)

/-- `getEmbeddedComment`: build the metadata map — the allow-listed
variables, the revision, the PR number, an optional non-empty "target"
variable and the command kind — and hand it to the external encoder. -/
def getEmbeddedComment (env : Env) (cfg : Config) (ciName : String) (isPlan : Bool) :
    Except String String :=
  let vars := cfg.EmbeddedVarNames.map (fun name => (name, lookupVar cfg.Vars name))
  let target := lookupVar cfg.Vars "target"
  let data : EmbeddedInput :=
    { Vars := vars
      SHA1 := cfg.PR.Revision
      PRNumber := cfg.PR.Number
      Target := if target ≠ "" then some target else none
      Command := if isPlan then "plan" else "apply" }
  env.embed ciName data

/-- The outcome of one `Notify` invocation: returned exit code and error,
the configuration as left behind (its PR identity may have been resolved),
and the final external world. -/
structure NotifyResult where
  exitCode : Int
  error : Option String
  cfg : Config
  world : World
deriving DecidableEq

/-- The final phase of `Notify`, once the pull-request identity is settled:
build the embedded marker (failure fatal), append it to the body and post
the comment (failure fatal). -/
def postPhase (env : Env) (cfg1 : Config) (param : ParamExec)
    (result : ParseResult) (body : String) (w : World) : NotifyResult :=
  match getEmbeddedComment env cfg1 param.CIName (cfg1.Parser = ParserKind.plan) with
  | Except.error e => { exitCode := result.ExitCode, error := some e, cfg := cfg1, world := w }
  | Except.ok embeddedComment =>
    let body1 := body ++ embeddedComment
    let w1 : World := { w with calls := w.calls ++ [APICall.postComment body1 cfg1.PR.Number cfg1.PR.Revision] }
    match env.post body1 { Number := cfg1.PR.Number, Revision := cfg1.PR.Revision } with
    | some e => { exitCode := result.ExitCode, error := some e, cfg := cfg1, world := w1 }
    | none => { exitCode := result.ExitCode, error := none, cfg := cfg1, world := w1 }

/-- The tail of `Notify` after the body was rendered: the apply-flow PR
resolution (merged-PR lookup, with commit-list fallback only when no PR
number is known; a commit-listing failure is fatal), then the embedded
marker and comment post of `postPhase`. -/
def afterRender (env : Env) (cfg : Config) (param : ParamExec)
    (result : ParseResult) (body : String) (w : World) : NotifyResult :=
  let step : Except String Config :=
    if cfg.Parser = ParserKind.apply then
      match env.mergedPRNumber cfg.PR.Revision with
      | Except.ok prNumber => Except.ok { cfg with PR := { cfg.PR with Number := prNumber } }
      | Except.error _ =>
        if ¬ cfg.PR.IsNumber then
          match env.listCommits cfg.PR.Revision with
          | Except.error e => Except.error e
          | Except.ok commits =>
            let lastRevision := (Commits.lastOne commits cfg.PR.Revision).1
            Except.ok { cfg with PR := { cfg.PR with Revision := lastRevision } }
        else Except.ok cfg
    else Except.ok cfg
  match step with
  | Except.error e => { exitCode := result.ExitCode, error := some e, cfg := cfg, world := w }
  | Except.ok cfg1 => postPhase env cfg1 param result body w

/-- The middle of `Notify` once a template is selected: optionally reconcile
labels (plan runs with a known PR number and at least one configured result
label), populate the value bag, render (a failure is fatal), then continue
with `afterRender`. -/
def notifyBody (env : Env) (cfg : Config) (param : ParamExec)
    (result : ParseResult) (template : String) (w : World) : NotifyResult :=
  let lbl :=
    if cfg.Parser = ParserKind.plan ∧ cfg.PR.IsNumber ∧ cfg.ResultLabels.HasAnyLabelDefined
    then updateLabels env cfg result w
    else ([], w)
  let errMsgs := lbl.1
  let w1 := lbl.2
  let ct : CommonTemplate :=
    { Result := result.Result
      ChangedResult := result.ChangedResult
      ChangeOutsideTerraform := result.OutsideTerraform
      Warning := result.Warning
      HasDestroy := result.HasDestroy
      Link := cfg.CI
      UseRawOutput := cfg.UseRawOutput
      Vars := cfg.Vars
      Templates := cfg.Templates
      Stdout := param.Stdout
      Stderr := param.Stderr
      CombinedOutput := param.CombinedOutput
      ExitCode := param.ExitCode
      ErrorMessages := errMsgs
      CreatedResources := result.CreatedResources
      UpdatedResources := result.UpdatedResources
      DeletedResources := result.DeletedResources
      ReplacedResources := result.ReplacedResources }
  let w2 : World := { w1 with calls := w1.calls ++ [APICall.execTemplate template] }
  match env.exec template ct with
  | Except.error e => { exitCode := result.ExitCode, error := some e, cfg := cfg, world := w2 }
  | Except.ok body => afterRender env cfg param result body w2

/-- `Notify`: parse the combined output, overwrite the parsed exit code with
the caller-supplied one; on a parse error switch to the parse-error template
and continue; otherwise return early on a structured error or on empty
result text; else continue with the normal template. -/
def Notify (env : Env) (cfg : Config) (param : ParamExec) (w : World) : NotifyResult :=
  let result0 := env.parse param.CombinedOutput
  let result : ParseResult := { result0 with ExitCode := param.ExitCode }
  if result.HasParseError then
    notifyBody env cfg param result cfg.ParseErrorTemplate w
  else if result.Error ≠ none then
    { exitCode := result.ExitCode, error := result.Error, cfg := cfg, world := w }
  else if result.Result = "" then
    { exitCode := result.ExitCode, error := result.Error, cfg := cfg, world := w }
  else
    notifyBody env cfg param result cfg.Template w

/-! ### Exit-code propagation -/

/-- Every branch of `postPhase` returns the parse result's exit code. -/
theorem postPhase_exitCode (env : Env) (cfg1 : Config) (param : ParamExec)
    (result : ParseResult) (body : String) (w : World) :
    (postPhase env cfg1 param result body w).exitCode = result.ExitCode := by
  unfold postPhase
  dsimp only
  repeat' split
  all_goals rfl

/-- Every branch of `afterRender` returns the parse result's exit code. -/
theorem afterRender_exitCode (env : Env) (cfg : Config) (param : ParamExec)
    (result : ParseResult) (body : String) (w : World) :
    (afterRender env cfg param result body w).exitCode = result.ExitCode := by
  unfold afterRender
  dsimp only
  repeat' split
  all_goals first
    | rfl
    | exact postPhase_exitCode ..

/-- Every branch of `notifyBody` returns the parse result's exit code. -/
theorem notifyBody_exitCode (env : Env) (cfg : Config) (param : ParamExec)
    (result : ParseResult) (template : String) (w : World) :
    (notifyBody env cfg param result template w).exitCode = result.ExitCode := by
  unfold notifyBody
  dsimp only
  split
  · rfl
  · exact afterRender_exitCode ..

/-- C2: on every return path of `Notify` — success, any fatal error, or
early return — the returned exit code equals the caller-supplied exit code
from the run parameters: the caller's exit code overwrites whatever exit
code the parser inferred from the text. -/
theorem notify_exit_code_eq_param (env : Env) (cfg : Config) (param : ParamExec)
    (w : World) : (Notify env cfg param w).exitCode = param.ExitCode := by
  unfold Notify
  dsimp only
  repeat' split
  all_goals first
    | rfl
    | exact notifyBody_exitCode ..

/-! ### Early returns on structured errors and empty result text -/

/-- Whenever parsing reports no parse error and the result text is empty,
`Notify` returns the caller-supplied exit code together with the parse
result's own error (nil if the parse produced no structured error) and
touches nothing: no API call is issued and no comment is posted. -/
theorem notify_empty_result_amended (env : Env) (cfg : Config) (param : ParamExec)
    (w : World) (hp : (env.parse param.CombinedOutput).HasParseError = false)
    (hr : (env.parse param.CombinedOutput).Result = "") :
    Notify env cfg param w =
      { exitCode := param.ExitCode, error := (env.parse param.CombinedOutput).Error,
        cfg := cfg, world := w } := by
  unfold Notify
  cases hE : (env.parse param.CombinedOutput).Error with
  | some e => simp [hp, hr, hE]
  | none => simp [hp, hr, hE]

/-- Environment refuting C1 as stated: parsing yields an empty result text
together with a structured error. -/
def envC1 : Env := { parse := fun _ => { Error := some "boom" } }

/-- C1 fails as stated: with empty result text but a non-nil structured
error, `Notify` returns that error, not nil. -/
theorem notify_empty_result_counterexample :
    (Notify envC1 {} {} {}).error ≠ none := by decide

/-- Witness: the amended C1 at a concrete input — the default parse gives an
empty result with no error, so `Notify` returns (0, nil) having done
nothing. -/
theorem notify_empty_result_amended_witness :
    Notify {} {} {} {} = { exitCode := 0, error := none, cfg := {}, world := {} } :=
  notify_empty_result_amended {} {} {} {} rfl rfl

/-- Whenever parsing reports no parse error but a structured error with
non-empty result text, `Notify` returns that error and the caller-supplied
exit code, and touches nothing: no API call is issued and no comment is
posted. -/
theorem notify_structured_error_amended (env : Env) (cfg : Config)
    (param : ParamExec) (w : World) (e : String)
    (hp : (env.parse param.CombinedOutput).HasParseError = false)
    (he : (env.parse param.CombinedOutput).Error = some e)
    (_hr : (env.parse param.CombinedOutput).Result ≠ "") :
    Notify env cfg param w =
      { exitCode := param.ExitCode, error := some e, cfg := cfg, world := w } := by
  unfold Notify
  simp [hp, he]

/-- Environment refuting C3 as stated: a parse result carrying both
`HasParseError = true` and a structured error with non-empty result text. -/
def envC3 : Env :=
  { parse := fun _ => { Result := "x", Error := some "boom", HasParseError := true } }

/-- C3 fails as stated: when `HasParseError` is also set, the structured
error is not returned and a comment is posted anyway. -/
theorem notify_structured_error_counterexample :
    (Notify envC3 {} {} {}).error ≠ some "boom" ∧
    APICall.postComment "" 0 "" ∈ (Notify envC3 {} {} {}).world.calls := by decide

/-- Environment for the amended-C3 witness: a structured error with
non-empty result text and no parse error. -/
def envC3w : Env := { parse := fun _ => { Result := "x", Error := some "boom" } }

/-- Witness: the amended C3 at a concrete input — the structured error is
returned unchanged with exit code 0 and an untouched world. -/
theorem notify_structured_error_amended_witness :
    Notify envC3w {} {} {} =
      { exitCode := 0, error := some "boom", cfg := {}, world := {} } :=
  notify_structured_error_amended envC3w {} {} {} "boom" rfl rfl (by decide)

/-! ### Characterizing the removal loop -/

/-- A listed label name is stale for target `label`: it differs from the
target and belongs to the result-label set, so the loop removes it. -/
def staleName (rl : ResultLabels) (label n : String) : Bool :=
  n != label && rl.IsResultLabel n

/-- A listed label name the loop removes successfully in environment
`env`: stale, and the removal call does not fail. -/
def removedName (env : Env) (rl : ResultLabels) (label n : String) : Bool :=
  staleName rl label n && (env.removeErr n).isNone

/-- An attached label survives the removal loop run over snapshot `A`:
no successfully removed snapshot entry bears its name. -/
def survives (env : Env) (rl : ResultLabels) (label : String) (A : List Label)
    (x : Label) : Bool :=
  !(A.any (fun l => removedName env rl label l.name && x.name == l.name))

/-- The color accumulator of the removal loop: the color of the last listed
label whose name matches `label`, else the initial value. -/
def listedColorAux (label c0 : String) (A : List Label) : String :=
  A.foldl (fun acc l => if l.name = label then l.color else acc) c0

theorem survives_nil (env : Env) (rl : ResultLabels) (label : String) (x : Label) :
    survives env rl label [] x = true := rfl

theorem survives_cons (env : Env) (rl : ResultLabels) (label : String)
    (l : Label) (rest : List Label) (x : Label) :
    survives env rl label (l :: rest) x =
      ((!(removedName env rl label l.name && x.name == l.name)) &&
        survives env rl label rest x) := by
  simp [survives, List.any_cons, Bool.not_or]

/-- In an environment where every removal failure carries HTTP status 404,
the removal loop never aborts: it returns the accumulated target color and
no error, removes exactly the successfully removable stale snapshot entries,
and logs one removal call per stale snapshot entry. -/
theorem removeLoop_benign (env : Env) (rl : ResultLabels) (label : String)
    (hben : ∀ n p, env.removeErr n = some p → p.1 = 404) (A : List Label) :
    ∀ (c0 : String) (w : World),
    removeLoop env rl label A c0 w =
      ((listedColorAux label c0 A, none),
       { attached := w.attached.filter (survives env rl label A),
         calls := w.calls ++ (A.filter (fun l => staleName rl label l.name)).map
           (fun l => APICall.removeLabel l.name) }) := by
  induction A with
  | nil =>
      intro c0 w
      simp only [removeLoop, listedColorAux, List.foldl_nil, List.filter_nil,
        List.map_nil, List.append_nil]
      rw [List.filter_congr (fun x _ => survives_nil env rl label x)]
      simp
  | cons l rest ih =>
      intro c0 w
      by_cases h1 : l.name = label
      · have hstale : staleName rl label l.name = false := by
          simp [staleName, h1]
        simp only [removeLoop, if_pos h1, ih, listedColorAux, List.foldl_cons,
          List.filter_cons, hstale, if_neg, Bool.false_eq_true, ↓reduceIte]
        refine congrArg _ ?_
        refine congrArg₂ _ ?_ rfl
        refine List.filter_congr ?_
        intro x _
        rw [survives_cons]
        simp [removedName, hstale]
      · by_cases h2 : rl.IsResultLabel l.name
        · have hstale : staleName rl label l.name = true := by
            simp [staleName, h2, bne_iff_ne, h1]
          cases hrem : env.removeErr l.name with
          | none =>
              have hrmv : removedName env rl label l.name = true := by
                simp [removedName, hstale, hrem]
              simp only [removeLoop, if_neg h1, if_pos h2, hrem]
              rw [ih]
              simp only [listedColorAux, List.foldl_cons, if_neg h1,
                List.filter_cons, hstale, if_pos rfl]
              refine congrArg₂ _ rfl ?_
              refine congrArg₂ _ ?_ (by simp)
              rw [List.filter_filter]
              refine List.filter_congr ?_
              intro x _
              rw [survives_cons]
              simp [hrmv, Bool.and_comm, bne]
          | some p =>
              have h404 : p.1 = 404 := hben l.name p hrem
              have hrmv : removedName env rl label l.name = false := by
                simp [removedName, hrem]
              obtain ⟨st, msg⟩ := p
              simp only at h404
              simp only [removeLoop, if_neg h1, if_pos h2, hrem, h404,
                ne_eq, not_true_eq_false, if_neg, ↓reduceIte]
              rw [ih]
              simp only [listedColorAux, List.foldl_cons, if_neg h1,
                List.filter_cons, hstale, if_pos rfl]
              refine congrArg₂ _ rfl ?_
              refine congrArg₂ _ ?_ (by simp)
              refine List.filter_congr ?_
              intro x _
              rw [survives_cons]
              simp [hrmv]
        · have hstale : staleName rl label l.name = false := by
            simp [staleName, h2]
          have hrmv : removedName env rl label l.name = false := by
            simp [removedName, hstale]
          simp only [removeLoop, if_neg h1, if_neg h2]
          rw [ih]
          simp only [listedColorAux, List.foldl_cons, if_neg h1,
            List.filter_cons, hstale, Bool.false_eq_true, ↓reduceIte]
          refine congrArg _ ?_
          refine congrArg₂ _ ?_ rfl
          refine List.filter_congr ?_
          intro x _
          rw [survives_cons]
          simp [hrmv]

/-- Benign lift of `removeLoop_benign` to `removeResultLabels`: with a
successful listing, the reconciler's removal phase returns the target's
listed color and no error, logs the listing plus one removal call per stale
attached label, and keeps exactly the surviving labels. -/
theorem removeResultLabels_benign (env : Env) (cfg : Config) (label : String)
    (w : World) (hlist : env.listErr = none)
    (hben : ∀ n p, env.removeErr n = some p → p.1 = 404) :
    removeResultLabels env cfg label w =
      ((listedColorAux label "" w.attached, none),
       { attached := w.attached.filter (survives env cfg.ResultLabels label w.attached),
         calls := (w.calls ++ [APICall.listLabels]) ++
           (w.attached.filter (fun l => staleName cfg.ResultLabels label l.name)).map
             (fun l => APICall.removeLabel l.name) }) := by
  unfold removeResultLabels
  rw [hlist]
  exact removeLoop_benign env cfg.ResultLabels label hben w.attached ""
    { w with calls := w.calls ++ [APICall.listLabels] }

/-! ### Shapes of the messages and calls `updateLabels` produces -/

theorem head_data_remove (e : String) :
    ("remove labels: " ++ e).data.head? = some 'r' := by
  simp only [String.data_append]; rfl

theorem head_data_add (L e : String) :
    ("add a label " ++ L ++ ": " ++ e).data.head? = some 'a' := by
  simp only [String.data_append]; rfl

theorem head_data_update (n c e : String) :
    (updateColorMsg n c e).data.head? = some 'u' := by
  unfold updateColorMsg
  simp only [String.data_append]; rfl

/-- The color-fixing loop only appends: it adds some color-update error
messages to the accumulated list and some color-update calls to the log. -/
theorem colorFixLoop_shape (env : Env) (L C : String) (A : List Label) :
    ∀ (errs : List String) (w : World),
    ∃ ms cs A2, colorFixLoop env L C A errs w = (errs ++ ms, ⟨A2, w.calls ++ cs⟩) ∧
      (∀ m ∈ ms, ∃ e, m = updateColorMsg L C e) ∧
      (∀ c ∈ cs, c = APICall.updateLabel L C) := by
  induction A with
  | nil =>
      intro errs w
      exact ⟨[], [], w.attached, by simp [colorFixLoop], by simp, by simp⟩
  | cons l rest ih =>
      intro errs w
      by_cases h1 : L = l.name
      · by_cases h2 : l.color ≠ C
        · cases hupd : env.updateErr with
          | some e =>
              obtain ⟨ms, cs, A2, heq, hm, hc⟩ :=
                ih (errs ++ [updateColorMsg L C e])
                  { w with calls := w.calls ++ [APICall.updateLabel L C] }
              refine ⟨updateColorMsg L C e :: ms, APICall.updateLabel L C :: cs, A2, ?_, ?_, ?_⟩
              · simp only [colorFixLoop, if_pos h1, if_pos h2, hupd, heq]
                simp
              · intro m hm2
                rcases List.mem_cons.mp hm2 with h | h
                · exact ⟨e, h⟩
                · exact hm m h
              · intro c hc2
                rcases List.mem_cons.mp hc2 with h | h
                · exact h
                · exact hc c h
          | none =>
              obtain ⟨ms, cs, A2, heq, hm, hc⟩ :=
                ih errs
                  { attached := setColor w.attached L C,
                    calls := w.calls ++ [APICall.updateLabel L C] }
              refine ⟨ms, APICall.updateLabel L C :: cs, A2, ?_, hm, ?_⟩
              · simp only [colorFixLoop, if_pos h1, if_pos h2, hupd, heq]
                simp
              · intro c hc2
                rcases List.mem_cons.mp hc2 with h | h
                · exact h
                · exact hc c h
        · obtain ⟨ms, cs, A2, heq, hm, hc⟩ := ih errs w
          exact ⟨ms, cs, A2, by simp only [colorFixLoop, if_pos h1, if_neg h2, heq], hm, hc⟩
      · obtain ⟨ms, cs, A2, heq, hm, hc⟩ := ih errs w
        exact ⟨ms, cs, A2, by simp only [colorFixLoop, if_neg h1, heq], hm, hc⟩

/-- `updateLabels` returns the removal-phase error message (if any) followed
only by add / color-update messages, and its log extends the removal
phase's log only with the add call and color-update calls. -/
theorem updateLabels_shape (env : Env) (cfg : Config) (result : ParseResult) (w : World) :
    ∃ ms cs A2,
      updateLabels env cfg result w =
        ((match (removeResultLabels env cfg (targetLabel cfg.ResultLabels result).1 w).1.2 with
          | some e => ["remove labels: " ++ e]
          | none => []) ++ ms,
         ⟨A2, (removeResultLabels env cfg (targetLabel cfg.ResultLabels result).1 w).2.calls ++ cs⟩) ∧
      (∀ m ∈ ms,
        (∃ e, m = "add a label " ++ (targetLabel cfg.ResultLabels result).1 ++ ": " ++ e) ∨
        (∃ e, m = updateColorMsg (targetLabel cfg.ResultLabels result).1
            (targetLabel cfg.ResultLabels result).2 e)) ∧
      (∀ c ∈ cs, c = APICall.addLabels [(targetLabel cfg.ResultLabels result).1] ∨
        c = APICall.updateLabel (targetLabel cfg.ResultLabels result).1
          (targetLabel cfg.ResultLabels result).2) := by
  unfold updateLabels
  dsimp only
  set L := (targetLabel cfg.ResultLabels result).1 with hL
  set C := (targetLabel cfg.ResultLabels result).2 with hC
  set r := removeResultLabels env cfg L w with hr
  by_cases h1 : L = ""
  · rw [if_pos h1]
    exact ⟨[], [], r.2.attached, by simp, by simp, by simp⟩
  · rw [if_neg h1]
    by_cases h2 : r.1.1 = ""
    · rw [if_pos h2]
      cases hA : env.addErr with
      | some e =>
          refine ⟨["add a label " ++ L ++ ": " ++ e], [APICall.addLabels [L]],
            r.2.attached, by simp, ?_, by simp⟩
          intro m hm
          rcases List.mem_singleton.mp hm with h
          exact Or.inl ⟨e, h⟩
      | none =>
          by_cases h3 : C ≠ ""
          · rw [if_pos h3]
            obtain ⟨ms, cs, A2, heq, hm, hc⟩ :=
              colorFixLoop_shape env L C
                (addLabelTo env r.2.attached L)
                (match r.1.2 with
                  | some e => ["remove labels: " ++ e]
                  | none => [])
                { attached := addLabelTo env r.2.attached L,
                  calls := r.2.calls ++ [APICall.addLabels [L]] }
            refine ⟨ms, APICall.addLabels [L] :: cs, A2, ?_, ?_, ?_⟩
            · rw [heq]
              simp
            · intro m hm2
              exact Or.inr (hm m hm2)
            · intro c hc2
              rcases List.mem_cons.mp hc2 with h | h
              · exact Or.inl h
              · exact Or.inr (hc c h)
          · rw [if_neg h3]
            exact ⟨[], [APICall.addLabels [L]], addLabelTo env r.2.attached L,
              by simp, by simp, by simp⟩
    · rw [if_neg h2]
      by_cases h3 : C ≠ "" ∧ C ≠ r.1.1
      · rw [if_pos h3]
        cases hU : env.updateErr with
        | some e =>
            refine ⟨[updateColorMsg L C e], [APICall.updateLabel L C],
              r.2.attached, by simp, ?_, by simp⟩
            intro m hm
            rcases List.mem_singleton.mp hm with h
            exact Or.inr ⟨e, h⟩
        | none =>
            exact ⟨[], [APICall.updateLabel L C], setColor r.2.attached L C,
              by simp, by simp, by simp⟩
      · rw [if_neg h3]
        exact ⟨[], [], r.2.attached, by simp, by simp, by simp⟩

/-- Whenever a target label exists and the removal phase reports an empty
current color, `updateLabels` issues the add call for the target label. -/
theorem updateLabels_add_mem (env : Env) (cfg : Config) (result : ParseResult)
    (w : World) (hL : (targetLabel cfg.ResultLabels result).1 ≠ "")
    (hc : (removeResultLabels env cfg (targetLabel cfg.ResultLabels result).1 w).1.1 = "") :
    APICall.addLabels [(targetLabel cfg.ResultLabels result).1] ∈
      (updateLabels env cfg result w).2.calls := by
  unfold updateLabels
  dsimp only
  rw [if_neg hL, if_pos hc]
  cases hA : env.addErr with
  | some e => simp
  | none =>
      by_cases h3 : (targetLabel cfg.ResultLabels result).2 ≠ ""
      · rw [if_pos h3]
        obtain ⟨ms, cs, A2, heq, hm, hcs⟩ :=
          colorFixLoop_shape env (targetLabel cfg.ResultLabels result).1
            (targetLabel cfg.ResultLabels result).2
            (addLabelTo env
              (removeResultLabels env cfg (targetLabel cfg.ResultLabels result).1 w).2.attached
              (targetLabel cfg.ResultLabels result).1)
            (match (removeResultLabels env cfg (targetLabel cfg.ResultLabels result).1 w).1.2 with
              | some e => ["remove labels: " ++ e]
              | none => [])
            { attached := addLabelTo env
                (removeResultLabels env cfg (targetLabel cfg.ResultLabels result).1 w).2.attached
                (targetLabel cfg.ResultLabels result).1,
              calls := (removeResultLabels env cfg (targetLabel cfg.ResultLabels result).1 w).2.calls ++
                [APICall.addLabels [(targetLabel cfg.ResultLabels result).1]] }
        rw [heq]
        simp
      · rw [if_neg h3]
        simp

/-! ### Not-found removals are benign; other removal failures -/

/-- C8: when every removal failure carries HTTP status 404, the removal
phase reports no error, every stale attached label still gets its removal
call (reconciliation never stops), and no removal failure message appears
in the accumulated error-message list. -/
theorem remove_not_found_benign (env : Env) (cfg : Config) (result : ParseResult)
    (w : World) (hlist : env.listErr = none)
    (hben : ∀ n p, env.removeErr n = some p → p.1 = 404) :
    (removeResultLabels env cfg (targetLabel cfg.ResultLabels result).1 w).1.2 = none ∧
    (∀ l ∈ w.attached,
      staleName cfg.ResultLabels (targetLabel cfg.ResultLabels result).1 l.name = true →
      APICall.removeLabel l.name ∈ (updateLabels env cfg result w).2.calls) ∧
    (∀ e, ("remove labels: " ++ e) ∉ (updateLabels env cfg result w).1) := by
  have hchar := removeResultLabels_benign env cfg
    (targetLabel cfg.ResultLabels result).1 w hlist hben
  obtain ⟨ms, cs, A2, heq, hm, hc⟩ := updateLabels_shape env cfg result w
  refine ⟨by rw [hchar], ?_, ?_⟩
  · intro l hl hstale
    rw [heq, hchar]
    dsimp only
    refine List.mem_append_left _ (List.mem_append_right _ ?_)
    exact List.mem_map.mpr ⟨l, List.mem_filter.mpr ⟨hl, hstale⟩, rfl⟩
  · intro e hmem
    rw [heq, hchar] at hmem
    simp only [List.nil_append] at hmem
    rcases hm _ hmem with ⟨e2, h⟩ | ⟨e2, h⟩
    · have h1 := head_data_remove e
      rw [h, head_data_add] at h1
      exact absurd h1 (by decide)
    · have h1 := head_data_remove e
      rw [h, head_data_update] at h1
      exact absurd h1 (by decide)

/-- Result labels for the C8 witness. -/
def rlC8 : ResultLabels :=
  { DestroyLabel := "destroy", NoChangesLabel := "no-changes" }

/-- Configuration for the C8 witness. -/
def cfgC8 : Config := { ResultLabels := rlC8 }

/-- Parse result for the C8 witness: no changes, so the target label is
"no-changes" and the attached "destroy" label is stale. -/
def resC8 : ParseResult := { HasNoChanges := true }

/-- Environment for the C8 witness: every removal fails with HTTP 404. -/
def envC8 : Env := { removeErr := fun _ => some (404, "Not Found") }

/-- World for the C8 witness: the stale "destroy" label is attached. -/
def wC8 : World := { attached := [⟨"destroy", "d93f0b"⟩] }

/-- Witness: even though its removal fails with 404, the stale "destroy"
label still gets its removal call. -/
theorem remove_not_found_benign_witness :
    APICall.removeLabel "destroy" ∈ (updateLabels envC8 cfgC8 resC8 wC8).2.calls :=
  (remove_not_found_benign envC8 cfgC8 resC8 wC8 rfl
      (fun _ p hp => by cases hp; rfl)).2.1
    ⟨"destroy", "d93f0b"⟩ (by decide) (by decide)

/-- When the removal phase fails with an error other than not-found, the
failure is recorded as a non-fatal message, the add step still runs when a
target label with empty current color exists, but the removal loop stops at
the failing label: the remaining snapshot entries are not attempted. -/
theorem remove_failure_nonfatal_amended (env : Env) (cfg : Config)
    (result : ParseResult) (w : World) (e : String)
    (hfail : (removeResultLabels env cfg (targetLabel cfg.ResultLabels result).1 w).1.2 = some e) :
    ("remove labels: " ++ e) ∈ (updateLabels env cfg result w).1 ∧
    ((targetLabel cfg.ResultLabels result).1 ≠ "" →
      (removeResultLabels env cfg (targetLabel cfg.ResultLabels result).1 w).1.1 = "" →
      APICall.addLabels [(targetLabel cfg.ResultLabels result).1] ∈
        (updateLabels env cfg result w).2.calls) ∧
    (∀ (l : Label) (rest : List Label) (c0 : String) (w2 : World) (st : Nat) (msg : String),
      cfg.ResultLabels.IsResultLabel l.name = true →
      l.name ≠ (targetLabel cfg.ResultLabels result).1 →
      env.removeErr l.name = some (st, msg) → st ≠ 404 →
      removeLoop env cfg.ResultLabels (targetLabel cfg.ResultLabels result).1
          (l :: rest) c0 w2 =
        ((c0, some msg), { w2 with calls := w2.calls ++ [APICall.removeLabel l.name] })) := by
  obtain ⟨ms, cs, A2, heq, hm, hc⟩ := updateLabels_shape env cfg result w
  refine ⟨?_, fun hL hc0 => updateLabels_add_mem env cfg result w hL hc0, ?_⟩
  · rw [heq]
    simp [hfail]
  · intro l rest c0 w2 st msg hres hne hrem h404
    simp only [removeLoop, if_neg hne, hres, if_pos, hrem, if_pos h404]

/-- Result labels for the C7 counterexample and witness. -/
def rlC7 : ResultLabels :=
  { AddOrUpdateLabel := "add-or-update", DestroyLabel := "stale1", NoChangesLabel := "stale2" }

/-- Configuration for the C7 counterexample and witness. -/
def cfgC7 : Config := { ResultLabels := rlC7 }

/-- Parse result for the C7 counterexample and witness: add-or-update only,
so the target label is "add-or-update" and both attached labels are stale. -/
def resC7 : ParseResult := { HasAddOrUpdateOnly := true }

/-- Environment for the C7 counterexample and witness: removing "stale1"
fails with HTTP 500. -/
def envC7 : Env :=
  { removeErr := fun n => if n == "stale1" then some (500, "boom") else none }

/-- World for the C7 counterexample and witness: two stale result labels
are attached, "stale1" listed first. -/
def wC7 : World := { attached := [⟨"stale1", "aaa"⟩, ⟨"stale2", "bbb"⟩] }

/-- C7 fails as stated: after the non-404 removal failure on "stale1", the
remaining stale label "stale2" is never attempted for removal. -/
theorem remove_failure_counterexample :
    APICall.removeLabel "stale2" ∉ (updateLabels envC7 cfgC7 resC7 wC7).2.calls := by
  decide

/-- Witness: with the "stale1" removal failing with HTTP 500, the failure
is recorded as the non-fatal message "remove labels: boom". -/
theorem remove_failure_nonfatal_amended_witness :
    ("remove labels: " ++ "boom") ∈ (updateLabels envC7 cfgC7 resC7 wC7).1 :=
  (remove_failure_nonfatal_amended envC7 cfgC7 resC7 wC7 "boom" (by decide)).1

/-! ### Presence of the target label is decided by the listed color -/

/-- C10: in a benign environment the reconciler decides whether the target
label is already present solely from the color accumulated while listing:
with an empty listed color the add call is issued (even when the label is in
fact attached, with the empty color), while with a non-empty listed color no
add call is issued and a color-update call is issued exactly when a
configured color exists and differs from the listed one. -/
theorem target_presence_by_color (env : Env) (cfg : Config) (result : ParseResult)
    (w : World) (hlist : env.listErr = none)
    (hben : ∀ n p, env.removeErr n = some p → p.1 = 404)
    (hL : (targetLabel cfg.ResultLabels result).1 ≠ "") :
    (listedColorAux (targetLabel cfg.ResultLabels result).1 "" w.attached = "" →
      APICall.addLabels [(targetLabel cfg.ResultLabels result).1] ∈
        (updateLabels env cfg result w).2.calls) ∧
    (listedColorAux (targetLabel cfg.ResultLabels result).1 "" w.attached ≠ "" →
      (∀ ns, APICall.addLabels ns ∉
        ((updateLabels env cfg result w).2.calls).drop w.calls.length) ∧
      (APICall.updateLabel (targetLabel cfg.ResultLabels result).1
          (targetLabel cfg.ResultLabels result).2 ∈
        ((updateLabels env cfg result w).2.calls).drop w.calls.length ↔
        ((targetLabel cfg.ResultLabels result).2 ≠ "" ∧
         (targetLabel cfg.ResultLabels result).2 ≠
           listedColorAux (targetLabel cfg.ResultLabels result).1 "" w.attached))) := by
  have hchar := removeResultLabels_benign env cfg
    (targetLabel cfg.ResultLabels result).1 w hlist hben
  constructor
  · intro hc
    exact updateLabels_add_mem env cfg result w hL (by rw [hchar]; exact hc)
  · intro hc
    unfold updateLabels
    dsimp only
    rw [hchar]
    dsimp only
    rw [if_neg hL, if_neg hc]
    by_cases h3 : (targetLabel cfg.ResultLabels result).2 ≠ "" ∧
        (targetLabel cfg.ResultLabels result).2 ≠
          listedColorAux (targetLabel cfg.ResultLabels result).1 "" w.attached
    · rw [if_pos h3]
      cases hU : env.updateErr with
      | some e =>
          dsimp only
          rw [List.append_assoc, List.append_assoc, List.drop_left]
          constructor
          · intro ns
            simp [List.mem_append, List.mem_map]
          · simp only [List.mem_append, List.mem_map]
            constructor
            · intro _; exact h3
            · intro _
              right; right; exact List.mem_singleton.mpr rfl
      | none =>
          dsimp only
          rw [List.append_assoc, List.append_assoc, List.drop_left]
          constructor
          · intro ns
            simp [List.mem_append, List.mem_map]
          · simp only [List.mem_append, List.mem_map]
            constructor
            · intro _; exact h3
            · intro _
              right; right; exact List.mem_singleton.mpr rfl
    · rw [if_neg h3]
      dsimp only
      rw [List.append_assoc, List.drop_left]
      constructor
      · intro ns
        simp [List.mem_append, List.mem_map]
      · simp only [List.mem_append, List.mem_map]
        constructor
        · intro h
          rcases h with h | ⟨a, _, h⟩
          · exact absurd h (by simp)
          · exact absurd h (by simp)
        · intro h
          exact absurd h h3

/-- Configuration for the C10 witness: the no-changes label is configured
with a color. -/
def cfgC10 : Config :=
  { ResultLabels := { NoChangesLabel := "no-changes", NoChangesLabelColor := "cccccc" } }

/-- Parse result for the C10 witness. -/
def resC10 : ParseResult := { HasNoChanges := true }

/-- World for the C10 witness: the target label is attached but carries the
empty color string. -/
def wC10 : World := { attached := [⟨"no-changes", ""⟩] }

/-- Witness: with the target label attached under an empty listed color,
the add call is issued anyway. -/
theorem target_presence_by_color_witness :
    APICall.addLabels ["no-changes"] ∈ (updateLabels {} cfgC10 resC10 wC10).2.calls :=
  (target_presence_by_color {} cfgC10 resC10 wC10 rfl
      (fun _ p hp => Option.noConfusion hp) (by decide)).1 (by decide)

/-! ### Facts about listed colors, recoloring and adding -/

theorem listedColorAux_no_entry (label : String) (A : List Label)
    (h : ∀ x ∈ A, x.name ≠ label) : ∀ c0, listedColorAux label c0 A = c0 := by
  induction A with
  | nil => intro c0; rfl
  | cons a rest ih =>
      intro c0
      have ha : a.name ≠ label := h a (List.mem_cons_self a rest)
      simp only [listedColorAux, List.foldl_cons, if_neg ha]
      exact ih (fun x hx => h x (List.mem_cons_of_mem a hx)) c0

theorem listedColorAux_ne_exists (label : String) (A : List Label)
    (h : listedColorAux label "" A ≠ "") : ∃ x ∈ A, x.name = label := by
  by_contra hno
  push_neg at hno
  exact h (listedColorAux_no_entry label A hno "")

theorem listedColorAux_eq_empty (label : String) (A : List Label)
    (hcol : ∀ x ∈ A, x.name = label → x.color ≠ "") :
    ∀ c0, listedColorAux label c0 A = "" → c0 = "" ∧ ∀ x ∈ A, x.name ≠ label := by
  induction A with
  | nil => intro c0 h; exact ⟨h, by simp⟩
  | cons a rest ih =>
      intro c0 h
      simp only [listedColorAux, List.foldl_cons] at h
      obtain ⟨h0, hrest⟩ := ih (fun x hx => hcol x (List.mem_cons_of_mem a hx)) _ h
      by_cases ha : a.name = label
      · rw [if_pos ha] at h0
        exact absurd h0 (hcol a (List.mem_cons_self a rest) ha)
      · rw [if_neg ha] at h0
        refine ⟨h0, ?_⟩
        intro x hx
        rcases List.mem_cons.mp hx with h | h
        · rw [h]; exact ha
        · exact hrest x h

theorem listedColorAux_append (label c0 : String) (A B : List Label) :
    listedColorAux label c0 (A ++ B) =
      listedColorAux label (listedColorAux label c0 A) B := by
  simp [listedColorAux, List.foldl_append]

theorem listedColorAux_filter (label : String) (p : Label → Bool) (A : List Label)
    (h : ∀ x ∈ A, x.name = label → p x = true) :
    ∀ c0, listedColorAux label c0 (A.filter p) = listedColorAux label c0 A := by
  induction A with
  | nil => intro c0; rfl
  | cons a rest ih =>
      intro c0
      have ih2 := ih (fun x hx => h x (List.mem_cons_of_mem a hx))
      rw [List.filter_cons]
      by_cases hp : p a = true
      · rw [if_pos hp]
        simp only [listedColorAux, List.foldl_cons]
        exact ih2 _
      · have ha : a.name ≠ label := by
          intro he
          exact hp (h a (List.mem_cons_self a rest) he)
        rw [if_neg hp]
        simp only [listedColorAux, List.foldl_cons, if_neg ha]
        exact ih2 c0

theorem listedColorAux_cons (label c0 : String) (l : Label) (A : List Label) :
    listedColorAux label c0 (l :: A) =
      listedColorAux label (if l.name = label then l.color else c0) A := rfl

theorem listedColorAux_setColor (label C : String) (A : List Label) :
    ∀ c0, listedColorAux label c0 (setColor A label C) =
      if A.any (fun x => x.name == label) then C else c0 := by
  induction A with
  | nil => intro c0; rfl
  | cons a rest ih =>
      intro c0
      by_cases ha : a.name = label
      · have h1 : setColor (a :: rest) label C =
            (⟨a.name, C⟩ : Label) :: setColor rest label C := by
          simp [setColor, ha]
        rw [h1, listedColorAux_cons]
        dsimp only
        rw [if_pos ha, ih C]
        have hb : (a.name == label) = true := by simp [ha]
        simp [List.any_cons, hb]
      · have h1 : setColor (a :: rest) label C = a :: setColor rest label C := by
          simp [setColor, ha]
        rw [h1, listedColorAux_cons, if_neg ha, ih c0]
        have hb : (a.name == label) = false := by simp [ha]
        simp [List.any_cons, hb]

theorem setColor_append (A B : List Label) (n c : String) :
    setColor (A ++ B) n c = setColor A n c ++ setColor B n c :=
  List.map_append _ A B

theorem setColor_name_mem (A : List Label) (n c : String) (x : Label)
    (hx : x ∈ setColor A n c) : ∃ y ∈ A, x.name = y.name := by
  obtain ⟨y, hy, hxy⟩ := List.mem_map.mp hx
  refine ⟨y, hy, ?_⟩
  by_cases h : y.name = n
  · rw [← hxy, if_pos h]
  · rw [← hxy, if_neg h]

theorem addLabelTo_not_present (env : Env) (A : List Label) (n : String)
    (h : A.any (fun l => l.name == n) = false) :
    addLabelTo env A n = A ++ [⟨n, env.addColor n⟩] := by
  unfold addLabelTo
  rw [h]
  rfl

theorem any_name_eq_false (A : List Label) (n : String)
    (h : ∀ x ∈ A, x.name ≠ n) : A.any (fun l => l.name == n) = false := by
  rw [List.any_eq_false]
  intro x hx
  simp [h x hx]

theorem colorFixLoop_skip (env : Env) (L C : String) (pre : List Label)
    (h : ∀ x ∈ pre, L ≠ x.name) :
    ∀ (rest : List Label) (errs : List String) (w : World),
    colorFixLoop env L C (pre ++ rest) errs w = colorFixLoop env L C rest errs w := by
  induction pre with
  | nil => intro rest errs w; rfl
  | cons a pre2 ih =>
      intro rest errs w
      have ha : L ≠ a.name := h a (List.mem_cons_self a pre2)
      simp only [List.cons_append, colorFixLoop, if_neg ha]
      exact ih (fun x hx => h x (List.mem_cons_of_mem a hx)) rest errs w

theorem colorFixLoop_single (env : Env) (L C ac : String) (errs : List String)
    (w : World) (hupd : env.updateErr = none) :
    colorFixLoop env L C [⟨L, ac⟩] errs w =
      if ac ≠ C then
        (errs, { attached := setColor w.attached L C,
                 calls := w.calls ++ [APICall.updateLabel L C] })
      else (errs, w) := by
  by_cases h : ac ≠ C
  · rw [if_pos h]
    simp [colorFixLoop, h, hupd]
  · rw [if_neg h]
    simp [colorFixLoop, h, hupd]

/-! ### The reconciled (settled) state and idempotence -/

/-- A pull-request label state is settled for target label `L` with
configured color `C`: no attached label is stale, and — when a target label
exists — its listed color is non-empty and matches `C` whenever a
configured color exists. -/
def settled (rl : ResultLabels) (L C : String) (A : List Label) : Prop :=
  (∀ x ∈ A, staleName rl L x.name = false) ∧
  (L ≠ "" → listedColorAux L "" A ≠ "" ∧ ¬(C ≠ "" ∧ C ≠ listedColorAux L "" A))

theorem survives_of_nostale (env : Env) (rl : ResultLabels) (L : String)
    (A : List Label) (h : ∀ l ∈ A, staleName rl L l.name = false) (x : Label) :
    survives env rl L A x = true := by
  unfold survives
  rw [Bool.not_eq_true']
  rw [List.any_eq_false]
  intro l hl
  simp [removedName, h l hl]

theorem survives_of_name_eq (env : Env) (rl : ResultLabels) (L : String)
    (A : List Label) (x : Label) (hx : x.name = L) :
    survives env rl L A x = true := by
  unfold survives
  rw [Bool.not_eq_true']
  rw [List.any_eq_false]
  intro l hl
  by_cases h : x.name = l.name
  · have : staleName rl L l.name = false := by
      rw [← h, hx]
      simp [staleName]
    simp [removedName, this]
  · simp [h]

theorem mem_filter_survives_nostale (env : Env) (rl : ResultLabels) (L : String)
    (A : List Label) (hrem : ∀ n, env.removeErr n = none) (x : Label)
    (hx : x ∈ A.filter (survives env rl L A)) : staleName rl L x.name = false := by
  rw [List.mem_filter] at hx
  obtain ⟨hmem, hsurv⟩ := hx
  by_contra hne
  rw [Bool.not_eq_false] at hne
  have hrmv : removedName env rl L x.name = true := by
    simp [removedName, hne, hrem]
  have hany : (A.any fun l => removedName env rl L l.name && x.name == l.name) = true :=
    List.any_eq_true.mpr ⟨x, hmem, by simp [hrmv]⟩
  simp [survives, hany] at hsurv

/-- On a settled state, `updateLabels` is a pure read: it reports no error
messages and only logs the label listing — no removal, no add, no color
update, and the attached labels are untouched. -/
theorem updateLabels_settled_noop (env : Env) (cfg : Config) (result : ParseResult)
    (w : World) (hlist : env.listErr = none)
    (hrem : ∀ n, env.removeErr n = none)
    (hset : settled cfg.ResultLabels (targetLabel cfg.ResultLabels result).1
      (targetLabel cfg.ResultLabels result).2 w.attached) :
    updateLabels env cfg result w =
      ([], { w with calls := w.calls ++ [APICall.listLabels] }) := by
  obtain ⟨hstale, htgt⟩ := hset
  have hben : ∀ n p, env.removeErr n = some p → p.1 = 404 := by
    intro n p hp
    rw [hrem n] at hp
    exact Option.noConfusion hp
  have hchar := removeResultLabels_benign env cfg
    (targetLabel cfg.ResultLabels result).1 w hlist hben
  have hfilter1 : w.attached.filter
      (survives env cfg.ResultLabels (targetLabel cfg.ResultLabels result).1 w.attached) =
      w.attached :=
    List.filter_eq_self.mpr (fun x _ =>
      survives_of_nostale env cfg.ResultLabels _ w.attached hstale x)
  have hfilter2 : w.attached.filter
      (fun l => staleName cfg.ResultLabels (targetLabel cfg.ResultLabels result).1 l.name) = [] :=
    List.filter_eq_nil_iff.mpr (fun x hx => by simp [hstale x hx])
  rw [hfilter1, hfilter2] at hchar
  simp only [List.map_nil, List.append_nil] at hchar
  unfold updateLabels
  dsimp only
  rw [hchar]
  dsimp only
  by_cases hL : (targetLabel cfg.ResultLabels result).1 = ""
  · rw [if_pos hL]
  · rw [if_neg hL]
    obtain ⟨hcne, hmatch⟩ := htgt hL
    rw [if_neg hcne, if_neg hmatch]

theorem staleName_self (rl : ResultLabels) (L : String) : staleName rl L L = false := by
  simp [staleName]

/-- After one error-free run of `updateLabels` — with the repository
assigning a non-empty color to a freshly attached target label and all
initially attached labels carrying non-empty colors — the pull request's
label state is settled. -/
theorem updateLabels_establishes_settled (env : Env) (cfg : Config)
    (result : ParseResult) (w : World) (hlist : env.listErr = none)
    (hrem : ∀ n, env.removeErr n = none)
    (hadd : env.addErr = none) (hupd : env.updateErr = none)
    (haddc : env.addColor (targetLabel cfg.ResultLabels result).1 ≠ "")
    (hcol : ∀ l ∈ w.attached, l.color ≠ "") :
    settled cfg.ResultLabels (targetLabel cfg.ResultLabels result).1
      (targetLabel cfg.ResultLabels result).2
      ((updateLabels env cfg result w).2.attached) := by
  have hben : ∀ n p, env.removeErr n = some p → p.1 = 404 := by
    intro n p hp
    rw [hrem n] at hp
    exact Option.noConfusion hp
  have hchar := removeResultLabels_benign env cfg
    (targetLabel cfg.ResultLabels result).1 w hlist hben
  have hFstale : ∀ x ∈ w.attached.filter
      (survives env cfg.ResultLabels (targetLabel cfg.ResultLabels result).1 w.attached),
      staleName cfg.ResultLabels (targetLabel cfg.ResultLabels result).1 x.name = false :=
    fun x hx => mem_filter_survives_nostale env cfg.ResultLabels _ w.attached hrem x hx
  have hFsub : ∀ x ∈ w.attached.filter
      (survives env cfg.ResultLabels (targetLabel cfg.ResultLabels result).1 w.attached),
      x ∈ w.attached := fun x hx => (List.mem_filter.mp hx).1
  have hFlisted : listedColorAux (targetLabel cfg.ResultLabels result).1 ""
      (w.attached.filter
        (survives env cfg.ResultLabels (targetLabel cfg.ResultLabels result).1 w.attached)) =
      listedColorAux (targetLabel cfg.ResultLabels result).1 "" w.attached :=
    listedColorAux_filter _ _ w.attached
      (fun x _ hxL => survives_of_name_eq env cfg.ResultLabels _ w.attached x hxL) ""
  unfold updateLabels
  dsimp only
  rw [hchar]
  dsimp only
  by_cases hL : (targetLabel cfg.ResultLabels result).1 = ""
  · rw [if_pos hL]
    exact ⟨hFstale, fun hne => absurd hL hne⟩
  · rw [if_neg hL]
    by_cases hc0 : listedColorAux (targetLabel cfg.ResultLabels result).1 "" w.attached = ""
    · rw [if_pos hc0]
      have hnone : ∀ x ∈ w.attached, x.name ≠ (targetLabel cfg.ResultLabels result).1 :=
        (listedColorAux_eq_empty _ w.attached (fun x hx _ => hcol x hx) "" hc0).2
      have hFnoL : ∀ x ∈ w.attached.filter
          (survives env cfg.ResultLabels (targetLabel cfg.ResultLabels result).1 w.attached),
          x.name ≠ (targetLabel cfg.ResultLabels result).1 :=
        fun x hx => hnone x (hFsub x hx)
      have hFany := any_name_eq_false _ _ hFnoL
      rw [hadd]
      dsimp only
      rw [addLabelTo_not_present env _ _ hFany]
      have hstale1 : ∀ x ∈ (w.attached.filter
            (survives env cfg.ResultLabels (targetLabel cfg.ResultLabels result).1 w.attached)) ++
            [⟨(targetLabel cfg.ResultLabels result).1,
              env.addColor (targetLabel cfg.ResultLabels result).1⟩],
          staleName cfg.ResultLabels (targetLabel cfg.ResultLabels result).1 x.name = false := by
        intro x hx
        rcases List.mem_append.mp hx with h | h
        · exact hFstale x h
        · rw [List.mem_singleton.mp h]
          exact staleName_self ..
      have hlistedF0 : listedColorAux (targetLabel cfg.ResultLabels result).1 ""
          ((w.attached.filter
            (survives env cfg.ResultLabels (targetLabel cfg.ResultLabels result).1 w.attached)) ++
            [⟨(targetLabel cfg.ResultLabels result).1,
              env.addColor (targetLabel cfg.ResultLabels result).1⟩]) =
          env.addColor (targetLabel cfg.ResultLabels result).1 := by
        rw [listedColorAux_append]
        simp [listedColorAux]
      by_cases h3 : (targetLabel cfg.ResultLabels result).2 ≠ ""
      · rw [if_pos h3]
        rw [colorFixLoop_skip env _ _ _ (fun x hx => Ne.symm (hFnoL x hx))]
        rw [colorFixLoop_single env _ _ _ _ _ hupd]
        by_cases h4 : env.addColor (targetLabel cfg.ResultLabels result).1 ≠
            (targetLabel cfg.ResultLabels result).2
        · rw [if_pos h4]
          dsimp only
          constructor
          · intro x hx
            obtain ⟨y, hy, hxy⟩ := setColor_name_mem _ _ _ x hx
            rw [hxy]
            exact hstale1 y hy
          · intro _
            rw [listedColorAux_setColor]
            have hany2 : ((w.attached.filter
                (survives env cfg.ResultLabels (targetLabel cfg.ResultLabels result).1 w.attached)) ++
                [Label.mk (targetLabel cfg.ResultLabels result).1
                  (env.addColor (targetLabel cfg.ResultLabels result).1)]).any
                (fun x => x.name == (targetLabel cfg.ResultLabels result).1) = true := by
              rw [List.any_eq_true]
              refine ⟨Label.mk (targetLabel cfg.ResultLabels result).1
                (env.addColor (targetLabel cfg.ResultLabels result).1),
                List.mem_append_right _ (List.mem_singleton.mpr rfl), by simp⟩
            rw [if_pos hany2]
            exact ⟨h3, fun h => h.2 rfl⟩
        · rw [if_neg h4]
          dsimp only
          rw [Ne, not_not] at h4
          constructor
          · exact hstale1
          · intro _
            rw [hlistedF0, h4]
            exact ⟨h3, fun h => h.2 rfl⟩
      · rw [if_neg h3]
        dsimp only
        constructor
        · exact hstale1
        · intro _
          rw [hlistedF0]
          refine ⟨haddc, ?_⟩
          rw [Ne, not_not] at h3
          intro h
          exact h.1 h3
    · rw [if_neg hc0]
      by_cases h3 : (targetLabel cfg.ResultLabels result).2 ≠ "" ∧
          (targetLabel cfg.ResultLabels result).2 ≠
            listedColorAux (targetLabel cfg.ResultLabels result).1 "" w.attached
      · rw [if_pos h3, hupd]
        dsimp only
        constructor
        · intro x hx
          obtain ⟨y, hy, hxy⟩ := setColor_name_mem _ _ _ x hx
          rw [hxy]
          exact hFstale y hy
        · intro _
          rw [listedColorAux_setColor]
          obtain ⟨y, hy, hyL⟩ := listedColorAux_ne_exists _ w.attached hc0
          have hyF : y ∈ w.attached.filter
              (survives env cfg.ResultLabels (targetLabel cfg.ResultLabels result).1 w.attached) :=
            List.mem_filter.mpr ⟨hy, survives_of_name_eq env cfg.ResultLabels _ w.attached y hyL⟩
          have hany2 : ((w.attached.filter
              (survives env cfg.ResultLabels (targetLabel cfg.ResultLabels result).1 w.attached)).any
              (fun x => x.name == (targetLabel cfg.ResultLabels result).1)) = true := by
            rw [List.any_eq_true]
            exact ⟨y, hyF, by simp [hyL]⟩
          rw [if_pos hany2]
          exact ⟨h3.1, fun h => h.2 rfl⟩
      · rw [if_neg h3]
        dsimp only
        refine ⟨hFstale, fun _ => ?_⟩
        rw [hFlisted]
        exact ⟨hc0, h3⟩

/-- C6: label reconciliation is idempotent — in an environment where the
listing, removal, add and color-update calls all succeed, where the
repository gives the target label a non-empty color on add, and where all
initially attached labels carry non-empty colors, a second consecutive run
of `updateLabels` with the same parse result and configuration performs no
label mutation: it reports no messages and only issues the read-only
listing call, leaving the attached labels untouched. -/
theorem updateLabels_idempotent (env : Env) (cfg : Config) (result : ParseResult)
    (w : World) (hlist : env.listErr = none)
    (hrem : ∀ n, env.removeErr n = none)
    (hadd : env.addErr = none) (hupd : env.updateErr = none)
    (haddc : env.addColor (targetLabel cfg.ResultLabels result).1 ≠ "")
    (hcol : ∀ l ∈ w.attached, l.color ≠ "") :
    updateLabels env cfg result (updateLabels env cfg result w).2 =
      ([], { (updateLabels env cfg result w).2 with
             calls := (updateLabels env cfg result w).2.calls ++ [APICall.listLabels] }) :=
  updateLabels_settled_noop env cfg result (updateLabels env cfg result w).2 hlist hrem
    (updateLabels_establishes_settled env cfg result w hlist hrem hadd hupd haddc hcol)

/-- Configuration for the C6 witness: no-changes and destroy labels
configured, the former with a color. -/
def cfgC6 : Config :=
  { ResultLabels := { NoChangesLabel := "no-changes", NoChangesLabelColor := "cccccc",
                      DestroyLabel := "destroy" } }

/-- Parse result for the C6 witness: no changes. -/
def resC6 : ParseResult := { HasNoChanges := true }

/-- World for the C6 witness: a stale "destroy" label is attached, so the
first run removes it and adds "no-changes". -/
def wC6 : World := { attached := [⟨"destroy", "d93f0b"⟩] }

/-- Witness: after a first run that removed "destroy" and added
"no-changes", the second run only issues the listing call. -/
theorem updateLabels_idempotent_witness :
    updateLabels {} cfgC6 resC6 (updateLabels {} cfgC6 resC6 wC6).2 =
      ([], { (updateLabels {} cfgC6 resC6 wC6).2 with
             calls := (updateLabels {} cfgC6 resC6 wC6).2.calls ++ [APICall.listLabels] }) :=
  updateLabels_idempotent {} cfgC6 resC6 wC6 rfl (fun _ => rfl) rfl rfl (by decide)
    (by decide)

/-! ### The label phase issues only label API calls -/

/-- Calls issued by the label reconciler, as opposed to template execution
and comment posting. -/
def labelCall : APICall → Bool
  | APICall.listLabels => true
  | APICall.removeLabel _ => true
  | APICall.addLabels _ => true
  | APICall.updateLabel _ _ => true
  | APICall.execTemplate _ => false
  | APICall.postComment _ _ _ => false

theorem removeLoop_calls (env : Env) (rl : ResultLabels) (label : String)
    (A : List Label) : ∀ (c0 : String) (w : World),
    ∃ cs, (removeLoop env rl label A c0 w).2.calls = w.calls ++ cs ∧
      ∀ c ∈ cs, ∃ n, c = APICall.removeLabel n := by
  induction A with
  | nil => intro c0 w; exact ⟨[], by simp [removeLoop], by simp⟩
  | cons l rest ih =>
      intro c0 w
      by_cases h1 : l.name = label
      · obtain ⟨cs, hcs, hcls⟩ := ih l.color w
        exact ⟨cs, by simp only [removeLoop, if_pos h1, hcs], hcls⟩
      · by_cases h2 : rl.IsResultLabel l.name
        · cases hrem : env.removeErr l.name with
          | none =>
              obtain ⟨cs, hcs, hcls⟩ := ih c0
                { attached := (w.attached.filter (fun x => x.name != l.name)),
                  calls := w.calls ++ [APICall.removeLabel l.name] }
              refine ⟨APICall.removeLabel l.name :: cs, ?_, ?_⟩
              · simp only [removeLoop, if_neg h1, if_pos h2, hrem]
                rw [hcs]
                simp
              · intro c hc
                rcases List.mem_cons.mp hc with h | h
                · exact ⟨l.name, h⟩
                · exact hcls c h
          | some p =>
              obtain ⟨st, msg⟩ := p
              by_cases h404 : st ≠ 404
              · refine ⟨[APICall.removeLabel l.name], ?_, ?_⟩
                · simp only [removeLoop, if_neg h1, if_pos h2, hrem, if_pos h404]
                · intro c hc
                  exact ⟨l.name, List.mem_singleton.mp hc⟩
              · obtain ⟨cs, hcs, hcls⟩ := ih c0
                  { attached := w.attached, calls := w.calls ++ [APICall.removeLabel l.name] }
                refine ⟨APICall.removeLabel l.name :: cs, ?_, ?_⟩
                · simp only [removeLoop, if_neg h1, if_pos h2, hrem, if_neg h404]
                  rw [hcs]
                  simp
                · intro c hc
                  rcases List.mem_cons.mp hc with h | h
                  · exact ⟨l.name, h⟩
                  · exact hcls c h
        · obtain ⟨cs, hcs, hcls⟩ := ih c0 w
          exact ⟨cs, by simp only [removeLoop, if_neg h1, if_neg h2, hcs], hcls⟩

/-- `updateLabels` only ever issues label API calls: its log extends the
incoming log with calls that are all of the label family. -/
theorem updateLabels_calls (env : Env) (cfg : Config) (result : ParseResult)
    (w : World) :
    ∃ cs, (updateLabels env cfg result w).2.calls = w.calls ++ cs ∧
      ∀ c ∈ cs, labelCall c = true := by
  obtain ⟨ms, cs1, A2, heq, _, hc1⟩ := updateLabels_shape env cfg result w
  have hrr : ∃ cs0, (removeResultLabels env cfg (targetLabel cfg.ResultLabels result).1 w).2.calls =
      w.calls ++ cs0 ∧ ∀ c ∈ cs0, labelCall c = true := by
    unfold removeResultLabels
    cases hl : env.listErr with
    | some e => exact ⟨[APICall.listLabels], by simp, by simp [labelCall]⟩
    | none =>
        obtain ⟨cs, hcs, hcls⟩ := removeLoop_calls env cfg.ResultLabels
          (targetLabel cfg.ResultLabels result).1 w.attached ""
          { w with calls := w.calls ++ [APICall.listLabels] }
        refine ⟨APICall.listLabels :: cs, ?_, ?_⟩
        · dsimp only
          rw [hcs]
          simp
        · intro c hc
          rcases List.mem_cons.mp hc with h | h
          · rw [h]; rfl
          · obtain ⟨n, hn⟩ := hcls c h
            rw [hn]; rfl
  obtain ⟨cs0, hcs0, hcls0⟩ := hrr
  refine ⟨cs0 ++ cs1, ?_, ?_⟩
  · rw [heq]
    dsimp only
    rw [hcs0, List.append_assoc]
  · intro c hc
    rcases List.mem_append.mp hc with h | h
    · exact hcls0 c h
    · rcases hc1 c h with h2 | h2
      · rw [h2]; rfl
      · rw [h2]; rfl

/-! ### Reductions through the rendering and posting tail -/

/-- When the template engine succeeds on everything, `notifyBody` reduces to
`afterRender` on some rendered body, with the log extended by the label
phase's calls (all of the label family) and the template-execution call. -/
theorem notifyBody_to_afterRender (env : Env) (cfg : Config) (param : ParamExec)
    (result : ParseResult) (template : String) (w : World)
    (hexec : ∀ ct, ∃ b, env.exec template ct = Except.ok b) :
    ∃ b cs, (∀ c ∈ cs, labelCall c = true) ∧
      notifyBody env cfg param result template w =
        afterRender env cfg param result b
          { attached := (if cfg.Parser = ParserKind.plan ∧ cfg.PR.IsNumber ∧
                cfg.ResultLabels.HasAnyLabelDefined
              then updateLabels env cfg result w else ([], w)).2.attached,
            calls := (w.calls ++ cs) ++ [APICall.execTemplate template] } := by
  have hlbl : ∃ cs, (∀ c ∈ cs, labelCall c = true) ∧
      (if cfg.Parser = ParserKind.plan ∧ cfg.PR.IsNumber ∧
          cfg.ResultLabels.HasAnyLabelDefined
        then updateLabels env cfg result w else ([], w)).2.calls = w.calls ++ cs := by
    split
    · obtain ⟨cs, h1, h2⟩ := updateLabels_calls env cfg result w
      exact ⟨cs, h2, h1⟩
    · exact ⟨[], by simp, by simp⟩
  obtain ⟨cs, hcls, hcs⟩ := hlbl
  unfold notifyBody
  dsimp only
  split
  case h_1 e heq =>
    obtain ⟨b, hb⟩ := hexec _
    exact Except.noConfusion (hb.symm.trans heq)
  case h_2 b heq =>
    refine ⟨b, cs, hcls, ?_⟩
    rw [hcs]

/-! ### The label decision table -/

/-- C5: the decision table of `updateLabels` is evaluated in the fixed
priority order AddOrUpdate, Destroy, NoChanges, PlanError with the first
match winning — in particular with both `HasAddOrUpdateOnly` and
`HasDestroy` set, the AddOrUpdate label and its configured color are chosen
— and with none of the four flags set no label is selected. -/
theorem label_decision_priority (rl : ResultLabels) (r : ParseResult) :
    (r.HasAddOrUpdateOnly = true →
      targetLabel rl r = (rl.AddOrUpdateLabel, rl.AddOrUpdateLabelColor)) ∧
    (r.HasAddOrUpdateOnly = false → r.HasDestroy = true →
      targetLabel rl r = (rl.DestroyLabel, rl.DestroyLabelColor)) ∧
    (r.HasAddOrUpdateOnly = false → r.HasDestroy = false → r.HasNoChanges = true →
      targetLabel rl r = (rl.NoChangesLabel, rl.NoChangesLabelColor)) ∧
    (r.HasAddOrUpdateOnly = false → r.HasDestroy = false → r.HasNoChanges = false →
      r.HasPlanError = true →
      targetLabel rl r = (rl.PlanErrorLabel, rl.PlanErrorLabelColor)) ∧
    (r.HasAddOrUpdateOnly = false → r.HasDestroy = false → r.HasNoChanges = false →
      r.HasPlanError = false → targetLabel rl r = ("", "")) := by
  unfold targetLabel
  refine ⟨?_, ?_, ?_, ?_, ?_⟩ <;> intros <;> simp_all

/-- Concrete result labels for the C5 witness. -/
def rlC5 : ResultLabels :=
  { AddOrUpdateLabel := "add-or-update", AddOrUpdateLabelColor := "1d76db",
    DestroyLabel := "destroy", DestroyLabelColor := "d93f0b" }

/-- Witness: with both AddOrUpdate and Destroy flags set the AddOrUpdate
label and color win. -/
theorem label_decision_priority_witness :
    targetLabel rlC5 { HasAddOrUpdateOnly := true, HasDestroy := true } =
      ("add-or-update", "1d76db") :=
  (label_decision_priority rlC5 { HasAddOrUpdateOnly := true, HasDestroy := true }).1 rfl

/-! ### Success paths through the posting tail -/

/-- When the metadata encoder and the comment post succeed, `postPhase`
returns no error and appends exactly one comment-post call. -/
theorem postPhase_success (env : Env) (cfg1 : Config) (param : ParamExec)
    (result : ParseResult) (body : String) (w : World)
    (hembed : ∀ ci d, ∃ s, env.embed ci d = Except.ok s)
    (hpost : ∀ b o, env.post b o = none) :
    ∃ b2, postPhase env cfg1 param result body w =
      { exitCode := result.ExitCode, error := none, cfg := cfg1,
        world := { w with calls := w.calls ++
          [APICall.postComment b2 cfg1.PR.Number cfg1.PR.Revision] } } := by
  unfold postPhase
  split
  case h_1 e heq =>
    obtain ⟨s, hs⟩ := hembed param.CIName _
    exact Except.noConfusion (hs.symm.trans (by unfold getEmbeddedComment at heq; exact heq))
  case h_2 ec heq =>
    dsimp only
    rw [hpost]
    exact ⟨body ++ ec, rfl⟩

/-- Under an apply-flow configuration where the merged-PR lookup, the
fallback and the posting all behave as hypothesized, `afterRender` resolves
the pull-request identity exactly as the code does: a successful lookup
overwrites the number; a failed lookup with a known number changes nothing
and is silently ignored; a failed lookup without a number makes a
commit-listing failure fatal, and a commit-listing success moves the
revision to the most recent commit. -/
theorem afterRender_apply (env : Env) (cfg : Config) (param : ParamExec)
    (result : ParseResult) (body : String) (w : World)
    (hkind : cfg.Parser = ParserKind.apply)
    (hembed : ∀ ci d, ∃ s, env.embed ci d = Except.ok s)
    (hpost : ∀ b o, env.post b o = none) :
    (∀ n, env.mergedPRNumber cfg.PR.Revision = Except.ok n →
      (afterRender env cfg param result body w).cfg.PR =
        { Number := n, Revision := cfg.PR.Revision } ∧
      (afterRender env cfg param result body w).error = none) ∧
    (∀ m, env.mergedPRNumber cfg.PR.Revision = Except.error m →
      cfg.PR.IsNumber = true →
      (afterRender env cfg param result body w).cfg.PR = cfg.PR ∧
      (afterRender env cfg param result body w).error = none) ∧
    (∀ m e, env.mergedPRNumber cfg.PR.Revision = Except.error m →
      cfg.PR.IsNumber = false → env.listCommits cfg.PR.Revision = Except.error e →
      afterRender env cfg param result body w =
        { exitCode := result.ExitCode, error := some e, cfg := cfg, world := w }) ∧
    (∀ m cs, env.mergedPRNumber cfg.PR.Revision = Except.error m →
      cfg.PR.IsNumber = false → env.listCommits cfg.PR.Revision = Except.ok cs →
      (afterRender env cfg param result body w).cfg.PR =
        { Number := cfg.PR.Number, Revision := (Commits.lastOne cs cfg.PR.Revision).1 } ∧
      (afterRender env cfg param result body w).error = none) := by
  refine ⟨?_, ?_, ?_, ?_⟩
  · intro n hn
    unfold afterRender
    dsimp only
    rw [if_pos hkind, hn]
    dsimp only
    obtain ⟨b2, hpp⟩ := postPhase_success env
      { cfg with PR := { cfg.PR with Number := n } } param result body w hembed hpost
    rw [hpp]
    exact ⟨rfl, rfl⟩
  · intro m hm hnum
    unfold afterRender
    dsimp only
    rw [if_pos hkind, hm]
    dsimp only
    rw [if_neg (by simp [hnum])]
    dsimp only
    obtain ⟨b2, hpp⟩ := postPhase_success env cfg param result body w hembed hpost
    rw [hpp]
    exact ⟨rfl, rfl⟩
  · intro m e hm hnum hl
    unfold afterRender
    dsimp only
    rw [if_pos hkind, hm]
    dsimp only
    rw [if_pos (by simp [hnum]), hl]
  · intro m cs hm hnum hl
    unfold afterRender
    dsimp only
    rw [if_pos hkind, hm]
    dsimp only
    rw [if_pos (by simp [hnum]), hl]
    dsimp only
    obtain ⟨b2, hpp⟩ := postPhase_success env
      { cfg with PR := { cfg.PR with Revision := (Commits.lastOne cs cfg.PR.Revision).1 } }
      param result body w hembed hpost
    rw [hpp]
    exact ⟨rfl, rfl⟩

/-- When the apply-flow lookups can settle (a successful merged-PR lookup,
or a known PR number, or a successful commit listing) and the encoder and
poster succeed, `afterRender` returns no error and appends exactly one
comment-post call. -/
theorem afterRender_success (env : Env) (cfg : Config) (param : ParamExec)
    (result : ParseResult) (body : String) (w : World)
    (hembed : ∀ ci d, ∃ s, env.embed ci d = Except.ok s)
    (hpost : ∀ b o, env.post b o = none)
    (happly : cfg.Parser = ParserKind.apply →
      (∃ n, env.mergedPRNumber cfg.PR.Revision = Except.ok n) ∨
      cfg.PR.IsNumber = true ∨
      (∃ cs, env.listCommits cfg.PR.Revision = Except.ok cs)) :
    (afterRender env cfg param result body w).error = none ∧
    ∃ b2 n r, (afterRender env cfg param result body w).world.calls =
      w.calls ++ [APICall.postComment b2 n r] := by
  unfold afterRender
  dsimp only
  split
  case h_1 e heq =>
    exfalso
    by_cases hk : cfg.Parser = ParserKind.apply
    · rw [if_pos hk] at heq
      rcases happly hk with ⟨n, hn⟩ | hnum | ⟨cs, hcs⟩
      · rw [hn] at heq
        exact Except.noConfusion heq
      · cases hm : env.mergedPRNumber cfg.PR.Revision with
        | ok n => rw [hm] at heq; exact Except.noConfusion heq
        | error m =>
            rw [hm] at heq
            dsimp only at heq
            rw [if_neg (by simp [hnum])] at heq
            exact Except.noConfusion heq
      · cases hm : env.mergedPRNumber cfg.PR.Revision with
        | ok n => rw [hm] at heq; exact Except.noConfusion heq
        | error m =>
            rw [hm] at heq
            dsimp only at heq
            by_cases hnum : cfg.PR.IsNumber = true
            · rw [if_neg (by simp [hnum])] at heq
              exact Except.noConfusion heq
            · rw [if_pos (by simpa using hnum), hcs] at heq
              exact Except.noConfusion heq
    · rw [if_neg hk] at heq
      exact Except.noConfusion heq
  case h_2 cfg1 heq =>
    obtain ⟨b2, hpp⟩ := postPhase_success env cfg1 param result body w hembed hpost
    rw [hpp]
    exact ⟨rfl, b2, cfg1.PR.Number, cfg1.PR.Revision, rfl⟩

/-! ### C4: the parse-error template -/

/-- C4: whenever parsing reports a parse error, `Notify` selects the
parse-error template — every template execution in this run uses it — and
the parse error is not fatal: when the render, marker and post collaborators
succeed (and the apply-flow lookups can settle), the run still renders and
posts a comment and returns no error. -/
theorem notify_parse_error_template (env : Env) (cfg : Config) (param : ParamExec)
    (w : World)
    (hp : (env.parse param.CombinedOutput).HasParseError = true)
    (hexec : ∀ ct, ∃ b, env.exec cfg.ParseErrorTemplate ct = Except.ok b)
    (hembed : ∀ ci d, ∃ s, env.embed ci d = Except.ok s)
    (hpost : ∀ b o, env.post b o = none)
    (happly : cfg.Parser = ParserKind.apply →
      (∃ n, env.mergedPRNumber cfg.PR.Revision = Except.ok n) ∨
      cfg.PR.IsNumber = true ∨
      (∃ cs, env.listCommits cfg.PR.Revision = Except.ok cs)) :
    (∀ t, APICall.execTemplate t ∈
        ((Notify env cfg param w).world.calls).drop w.calls.length →
      t = cfg.ParseErrorTemplate) ∧
    APICall.execTemplate cfg.ParseErrorTemplate ∈ (Notify env cfg param w).world.calls ∧
    (Notify env cfg param w).error = none ∧
    (∃ b n r, APICall.postComment b n r ∈ (Notify env cfg param w).world.calls) := by
  unfold Notify
  dsimp only
  rw [if_pos hp]
  obtain ⟨b, cs, hcls, hEq⟩ := notifyBody_to_afterRender env cfg param
    { env.parse param.CombinedOutput with ExitCode := param.ExitCode }
    cfg.ParseErrorTemplate w hexec
  rw [hEq]
  obtain ⟨herr, b2, n, r, hcalls⟩ := afterRender_success env cfg param
    { env.parse param.CombinedOutput with ExitCode := param.ExitCode } b
    { attached := (if cfg.Parser = ParserKind.plan ∧ cfg.PR.IsNumber ∧
          cfg.ResultLabels.HasAnyLabelDefined
        then updateLabels env cfg
          { env.parse param.CombinedOutput with ExitCode := param.ExitCode } w
        else ([], w)).2.attached,
      calls := (w.calls ++ cs) ++ [APICall.execTemplate cfg.ParseErrorTemplate] }
    hembed hpost happly
  refine ⟨?_, ?_, herr, ⟨b2, n, r, by rw [hcalls]; simp⟩⟩
  · intro t ht
    rw [hcalls] at ht
    have hassoc : (((w.calls ++ cs) ++ [APICall.execTemplate cfg.ParseErrorTemplate]) ++
        [APICall.postComment b2 n r]) =
        w.calls ++ (cs ++ ([APICall.execTemplate cfg.ParseErrorTemplate] ++
          [APICall.postComment b2 n r])) := by
      simp [List.append_assoc]
    rw [hassoc, List.drop_left] at ht
    rcases List.mem_append.mp ht with h | h
    · exact absurd (hcls _ h) (by simp [labelCall])
    · rcases List.mem_append.mp h with h2 | h2
      · injection List.mem_singleton.mp h2 with h3
      · exact absurd (List.mem_singleton.mp h2) (by simp)
  · rw [hcalls]
    simp

/-- Environment for the C4 witness: parsing reports a parse error and every
collaborator succeeds. -/
def envC4 : Env := { parse := fun _ => { HasParseError := true } }

/-- Witness: with a parse error reported, the parse-error template is
executed and the run completes without error. -/
theorem notify_parse_error_template_witness :
    APICall.execTemplate "" ∈ (Notify envC4 {} {} {}).world.calls ∧
    (Notify envC4 {} {} {}).error = none :=
  have T := notify_parse_error_template envC4 {} {} {} rfl
    (fun _ => ⟨"", rfl⟩) (fun _ _ => ⟨"", rfl⟩) (fun _ _ => rfl)
    (fun h => ParserKind.noConfusion h)
  ⟨T.2.1, T.2.2.1⟩

/-! ### C9: the apply-flow pull-request resolution -/

/-- C9: in the apply flow (with the early returns passed and the render,
marker and post collaborators succeeding) — a successful merged-PR lookup
sets the configured PR number to the looked-up number; a failed lookup with
a PR number already known is silently ignored, with no fallback and no
error; a failed lookup without a known number makes a commit-listing
failure fatal, returned with the caller's exit code; and a successful
commit listing sets the working revision to the most recent commit. -/
theorem apply_flow_pr_resolution (env : Env) (cfg : Config) (param : ParamExec)
    (w : World) (hkind : cfg.Parser = ParserKind.apply)
    (hgate : (env.parse param.CombinedOutput).HasParseError = true ∨
      ((env.parse param.CombinedOutput).Error = none ∧
       (env.parse param.CombinedOutput).Result ≠ ""))
    (hexec : ∀ t ct, ∃ b, env.exec t ct = Except.ok b)
    (hembed : ∀ ci d, ∃ s, env.embed ci d = Except.ok s)
    (hpost : ∀ b o, env.post b o = none) :
    (∀ n, env.mergedPRNumber cfg.PR.Revision = Except.ok n →
      (Notify env cfg param w).cfg.PR = { Number := n, Revision := cfg.PR.Revision } ∧
      (Notify env cfg param w).error = none) ∧
    (∀ m, env.mergedPRNumber cfg.PR.Revision = Except.error m →
      cfg.PR.IsNumber = true →
      (Notify env cfg param w).cfg.PR = cfg.PR ∧
      (Notify env cfg param w).error = none) ∧
    (∀ m e, env.mergedPRNumber cfg.PR.Revision = Except.error m →
      cfg.PR.IsNumber = false → env.listCommits cfg.PR.Revision = Except.error e →
      (Notify env cfg param w).error = some e ∧
      (Notify env cfg param w).exitCode = param.ExitCode) ∧
    (∀ m cs, env.mergedPRNumber cfg.PR.Revision = Except.error m →
      cfg.PR.IsNumber = false → env.listCommits cfg.PR.Revision = Except.ok cs →
      (Notify env cfg param w).cfg.PR =
        { Number := cfg.PR.Number, Revision := (Commits.lastOne cs cfg.PR.Revision).1 } ∧
      (Notify env cfg param w).error = none) := by
  have tail : ∀ (b : String) (w2 : World),
      (∀ n, env.mergedPRNumber cfg.PR.Revision = Except.ok n →
        (afterRender env cfg param
            { env.parse param.CombinedOutput with ExitCode := param.ExitCode } b w2).cfg.PR =
          { Number := n, Revision := cfg.PR.Revision } ∧
        (afterRender env cfg param
            { env.parse param.CombinedOutput with ExitCode := param.ExitCode } b w2).error = none) ∧
      (∀ m, env.mergedPRNumber cfg.PR.Revision = Except.error m →
        cfg.PR.IsNumber = true →
        (afterRender env cfg param
            { env.parse param.CombinedOutput with ExitCode := param.ExitCode } b w2).cfg.PR = cfg.PR ∧
        (afterRender env cfg param
            { env.parse param.CombinedOutput with ExitCode := param.ExitCode } b w2).error = none) ∧
      (∀ m e, env.mergedPRNumber cfg.PR.Revision = Except.error m →
        cfg.PR.IsNumber = false → env.listCommits cfg.PR.Revision = Except.error e →
        (afterRender env cfg param
            { env.parse param.CombinedOutput with ExitCode := param.ExitCode } b w2).error = some e ∧
        (afterRender env cfg param
            { env.parse param.CombinedOutput with ExitCode := param.ExitCode } b w2).exitCode =
          param.ExitCode) ∧
      (∀ m cs, env.mergedPRNumber cfg.PR.Revision = Except.error m →
        cfg.PR.IsNumber = false → env.listCommits cfg.PR.Revision = Except.ok cs →
        (afterRender env cfg param
            { env.parse param.CombinedOutput with ExitCode := param.ExitCode } b w2).cfg.PR =
          { Number := cfg.PR.Number, Revision := (Commits.lastOne cs cfg.PR.Revision).1 } ∧
        (afterRender env cfg param
            { env.parse param.CombinedOutput with ExitCode := param.ExitCode } b w2).error = none) := by
    intro b w2
    have A := afterRender_apply env cfg param
      { env.parse param.CombinedOutput with ExitCode := param.ExitCode } b w2
      hkind hembed hpost
    refine ⟨A.1, A.2.1, ?_, A.2.2.2⟩
    intro m e hm hnum hl
    have h := A.2.2.1 m e hm hnum hl
    rw [h]
    exact ⟨rfl, rfl⟩
  unfold Notify
  dsimp only
  by_cases hpe : (env.parse param.CombinedOutput).HasParseError = true
  · rw [if_pos hpe]
    obtain ⟨b, cs, _, hEq⟩ := notifyBody_to_afterRender env cfg param
      { env.parse param.CombinedOutput with ExitCode := param.ExitCode }
      cfg.ParseErrorTemplate w (fun ct => hexec _ ct)
    rw [hEq]
    exact tail b _
  · rw [if_neg hpe]
    obtain ⟨hp, hr⟩ := hgate.resolve_left hpe
    rw [if_neg (by simp [hp]), if_neg hr]
    obtain ⟨b, cs, _, hEq⟩ := notifyBody_to_afterRender env cfg param
      { env.parse param.CombinedOutput with ExitCode := param.ExitCode }
      cfg.Template w (fun ct => hexec _ ct)
    rw [hEq]
    exact tail b _

/-- Environment for the C9 witness: parsing yields a non-empty result and
the merged-PR lookup resolves to number 42. -/
def envC9 : Env :=
  { parse := fun _ => { Result := "ok" },
    mergedPRNumber := fun _ => Except.ok 42 }

/-- Configuration for the C9 witness: an apply-flow run addressed by
revision only. -/
def cfgC9 : Config := { Parser := ParserKind.apply, PR := { Revision := "abc123" } }

/-- Witness: the successful merged-PR lookup writes number 42 into the
configured pull-request identity. -/
theorem apply_flow_pr_resolution_witness :
    (Notify envC9 cfgC9 {} {}).cfg.PR = { Number := 42, Revision := "abc123" } :=
  ((apply_flow_pr_resolution envC9 cfgC9 {} {} rfl
      (Or.inr ⟨rfl, by decide⟩) (fun _ _ => ⟨"", rfl⟩) (fun _ _ => ⟨"", rfl⟩)
      (fun _ _ => rfl)).1 42 rfl).1

end Tfcmt
